import Mathlib

/-!
Verification development for the paginated BigQuery → MySQL transfer operator
(src/airflow/providers/google/cloud/transfers/bigquery_to_mysql.py) and the
standalone label sanitization utility (src/test.py).

Python strings are embedded as `List Char` (a Python `str` is a sequence of
code points).  Collaborator calls (the BigQuery read hook, the MySQL write
hook and the md5 digest) live outside the repository sources, so they are
modelled from the spec or kept abstract where noted; everything else is
translated directly from the source files.
-/

namespace Airflow

/-! ## Definitions: table identifier parsing (`BigQueryToMySqlOperator.__init__`)

The constructor runs `self.dataset_id, self.table_id = dataset_table.split('.')`
and turns the unpacking `ValueError` into
`ValueError(f'Could not parse ... as <dataset>.<table>')`.  Python's
`str.split('.')` splits on every occurrence of the dot; the unpacking succeeds
exactly when the split yields two parts (parts may be empty). -/

/-- Embedding of Python `s.split('.')`: split a character list at every
dot, keeping empty parts, so that `splitDot [] = [[]]` just as
`"".split('.') == ['']`. -/
def splitDot : List Char → List (List Char)
  | [] => [[]]
  | c :: cs =>
    if c = '.' then [] :: splitDot cs
    else
      match splitDot cs with
      | [] => [[c]]
      | h :: tl => (c :: h) :: tl

/-- Embedding of the `__init__` parsing step: succeed with the pair
`(dataset_id, table_id)` when the split has exactly two parts, otherwise
raise the `ValueError` used by the source. -/
def parseDatasetTable (s : List Char) : Except String (List Char × List Char) :=
  match splitDot s with
  | [d, t] => Except.ok (d, t)
  | _ => Except.error "Could not parse as <dataset>.<table>"

/-! ## Definitions: the transfer core (`_bq_get_data` and `execute`)

The generator `_bq_get_data` repeatedly calls
`hook.list_rows(dataset_id, table_id, max_results=batch_size,
selected_fields=..., start_index=i * batch_size)`, stops on an empty
response, normalizes each page by collecting `fields['v']` for the entries of
`dict_row['f']`, and yields the page; `execute` consumes the generator and
calls `mysql_hook.insert_rows(table, rows, replace=...)` on each yielded
batch.  `runLoop` below merges the generator with its single consumer, which
interleaves the calls exactly as the Python does: fetch page i, (on a
non-empty page) write batch i, fetch page i+1, ... -/

/-- One field entry of a source row: the BigQuery row JSON exposes the
scalar under the key `v`. -/
structure FieldEntry (α : Type) where
  v : α
deriving DecidableEq

/-- One source row: the BigQuery row JSON exposes the ordered field entries
under the key `f`. -/
structure SourceRow (α : Type) where
  f : List (FieldEntry α)
deriving DecidableEq

/-- A source table: the native column order plus the stored rows, each row
listing one scalar per native column. -/
structure BQTable (α : Type) where
  columns : List String
  rows : List (List α)
deriving DecidableEq

/-- Does the projection keep this column?  `none` means all fields. -/
def keepCol (sel : Option (List String)) (name : String) : Bool :=
  match sel with
  | none => true
  | some proj => decide (name ∈ proj)

/-- Modelled from the spec: `BigQueryHook.list_rows` is a collaborator whose
code is not under the repository sources.  Per the spec (§4.1, §6, §8) it
returns the slice of at most `maxResults` rows starting at `startIndex`, and
each returned row carries field entries for the projected columns in the
table's NATIVE column order (the projection restricts which columns appear
but never reorders them). -/
def list_rows {α : Type} (t : BQTable α) (sel : Option (List String))
    (maxResults startIndex : Nat) : List (SourceRow α) :=
  ((t.rows.drop startIndex).take maxResults).map (fun row =>
    ⟨((t.columns.zip row).filter (fun p => keepCol sel p.1)).map
      (fun p => ⟨p.2⟩)⟩)

/-- The normalization loop of `_bq_get_data` (the `for dict_row in rows`
body): for every source row, collect `fields['v']` for each entry of
`dict_row['f']`, in order. -/
def normalize {α : Type} (rows : List (SourceRow α)) : List (List α) :=
  rows.map (fun r => r.f.map (fun e => e.v))

/-- Observable collaborator calls issued by one transfer run: a fetch
(`list_rows` with its start index and page-size cap) or a write
(`insert_rows` with the batch and the replace flag). -/
inductive Event (α : Type) where
  | fetch (startIndex maxResults : Nat)
  | write (rows : List (List α)) (replace : Bool)
deriving DecidableEq

/-- The fused fetch/normalize/write loop of `_bq_get_data` + `execute`.
`sink k b` is the sink collaborator's answer to the k-th `insert_rows` call
on batch `b` (`none` = success, `some e` = the exception it raises).  The
first component lists the collaborator calls in order; the second is the
propagated sink error, if any.  The `fuel` argument only bounds the
recursion; `run` supplies enough for the loop to finish on its own. -/
def runLoop {α ε : Type} (t : BQTable α) (sel : Option (List String))
    (batch_size : Nat) (replace : Bool)
    (sink : Nat → List (List α) → Option ε) :
    Nat → Nat → List (Event α) × Option ε
  | 0, _ => ([], none)
  | fuel + 1, i =>
    let page := list_rows t sel batch_size (i * batch_size)
    if page.length = 0 then
      ([Event.fetch (i * batch_size) batch_size], none)
    else
      let batch := normalize page
      match sink i batch with
      | some e =>
        ([Event.fetch (i * batch_size) batch_size,
          Event.write batch replace], some e)
      | none =>
        let rest := runLoop t sel batch_size replace sink fuel (i + 1)
        (Event.fetch (i * batch_size) batch_size ::
          Event.write batch replace :: rest.1, rest.2)

/-- Errors a transfer run can end with: the constructor-time `ValueError`
(configuration) or a propagated sink exception. -/
inductive TransferError (ε : Type) where
  | config (msg : String)
  | sink (e : ε)
deriving DecidableEq

/-- A whole transfer run: `__init__` parses the table identifier (raising
the configuration error before any collaborator call), then `execute`
drives the loop.  The loop performs at most one fetch per `batch_size`-sized
chunk of the table plus one final empty fetch, so `rows.length + 1` fuel is
never exhausted. -/
def run {α ε : Type} (dataset_table : List Char) (t : BQTable α)
    (sel : Option (List String)) (batch_size : Nat) (replace : Bool)
    (sink : Nat → List (List α) → Option ε) :
    List (Event α) × Except (TransferError ε) Unit :=
  match parseDatasetTable dataset_table with
  | Except.error m => ([], Except.error (TransferError.config m))
  | Except.ok _ =>
    let r := runLoop t sel batch_size replace sink (t.rows.length + 1) 0
    (r.1, match r.2 with
          | none => Except.ok ()
          | some e => Except.error (TransferError.sink e))

/-- The page the orchestrator fetches at page index `j`: the loop passes
`start_index = j * batch_size` and `max_results = batch_size`. -/
def pageAt {α : Type} (t : BQTable α) (sel : Option (List String))
    (ps j : Nat) : List (SourceRow α) :=
  list_rows t sel ps (j * ps)

/-- The normalized batch written for page index `j`. -/
def batchAt {α : Type} (t : BQTable α) (sel : Option (List String))
    (ps j : Nat) : List (List α) :=
  normalize (pageAt t sel ps j)

/-- The expected alternating call trace for `n` consecutive non-empty pages
starting at page index `i`: fetch page i, write batch i, fetch page i+1, ... -/
def pagesTrace {α : Type} (t : BQTable α) (sel : Option (List String))
    (ps : Nat) (replace : Bool) : Nat → Nat → List (Event α)
  | _, 0 => []
  | i, n + 1 =>
    Event.fetch (i * ps) ps :: Event.write (batchAt t sel ps i) replace ::
      pagesTrace t sel ps replace (i + 1) n

/-- The sizes of the batches passed to the write collaborator, in call
order. -/
def writeSizes {α : Type} (tr : List (Event α)) : List Nat :=
  tr.filterMap (fun e => match e with
    | Event.write b _ => some b.length
    | _ => none)

/-- The concrete 2,500-row single-column source table of the end-to-end
scenario of C2. -/
def t2500 : BQTable Nat :=
  ⟨["A"], List.replicate 2500 [0]⟩

/-- The C2 scenario run: 2,500 rows, `batch_size = 1000`, Insert mode
(`replace = false`), a sink that always succeeds. -/
def run2500 : List (Event Nat) × Except (TransferError Unit) Unit :=
  run ['d', '.', 't'] t2500 none 1000 false (fun _ _ => none)

/-! ## Definitions: label sanitization (src/test.py)

`make_safe_label_value(string, max_length=MAX_LABEL_LEN)` first computes
`safe_label = re.sub(r"^[^a-z0-9A-Z]*|[^a-zA-Z0-9_\-\.]|[^a-z0-9A-Z]*$", "",
string)`.  Scanning left to right, that alternation deletes exactly the
maximal leading run of non-alphanumeric characters, every character outside
the allowed class, and the maximal trailing run of non-alphanumeric
characters, which is how `safe_label_sub` below computes it.  If the result
is longer than `max_length` or differs from the input, the source truncates
it to `max_length - len(safe_hash) - 1` characters (a Python slice, counting
from the end when the bound is negative) and appends `"-"` plus the first 9
characters of the md5 hexdigest of the input. -/

/-- The boundary character class of the regex: `[a-z0-9A-Z]`. -/
def isAlnumPy (c : Char) : Bool :=
  (c ≥ 'a' && c ≤ 'z') || (c ≥ '0' && c ≤ '9') || (c ≥ 'A' && c ≤ 'Z')

/-- The characters the regex keeps in the interior: `[a-zA-Z0-9_\-\.]`. -/
def isAllowedLabelChar (c : Char) : Bool :=
  isAlnumPy c || c == '_' || c == '-' || c == '.'

/-- Python slicing `s[:k]` for an `int` bound `k`, which counts from the end
of the string when negative. -/
def pySliceTo (s : List Char) (k : Int) : List Char :=
  if k < 0 then s.take (s.length - (-k).toNat) else s.take k.toNat

/-- Embedding of the `re.sub` call of `make_safe_label_value`: strip the
leading and trailing runs of non-alphanumeric characters and drop every
remaining character outside `[a-zA-Z0-9_\-\.]`. -/
def safe_label_sub (s : List Char) : List Char :=
  ((((s.dropWhile (fun c => !isAlnumPy c)).reverse).dropWhile
      (fun c => !isAlnumPy c)).reverse).filter isAllowedLabelChar

def MAX_LABEL_LEN : Nat := 63

/-- Embedding of `make_safe_label_value` (src/test.py).  `md5hex` abstracts
the external `hashlib.md5(string.encode()).hexdigest()` collaborator (a
fixed function of the input string, so the whole definition is a pure,
deterministic function); the source passes `max_length = MAX_LABEL_LEN`
when the caller does not override it. -/
def make_safe_label_value (md5hex : List Char → List Char) (s : List Char)
    (max_length : Nat) : List Char :=
  let safe_label := safe_label_sub s
  if max_length < safe_label.length ∨ s ≠ safe_label then
    let safe_hash := (md5hex s).take 9
    pySliceTo safe_label
        ((max_length : Int) - (safe_hash.length : Int) - 1) ++
      '-' :: safe_hash
  else
    safe_label

/-- The hexadecimal digits an md5 hexdigest consists of. -/
def hexDigits : List Char :=
  "0123456789abcdef".data

/-- A fixed stand-in digest instantiating the abstract `md5hex` collaborator
in concrete witnesses: 32 hexadecimal characters, like a real hexdigest. -/
def hexConst : List Char → List Char := fun _ =>
  "0123456789abcdef0123456789abcdef".data

/-! ## Theorems: parsing -/

theorem splitDot_ne_nil (s : List Char) : splitDot s ≠ [] := by
  induction s with
  | nil => simp [splitDot]
  | cons c cs ih =>
    simp only [splitDot]
    by_cases hc : c = '.'
    · simp [hc]
    · simp only [hc, if_false]
      cases h : splitDot cs with
      | nil => simp
      | cons h tl => simp

theorem length_splitDot (s : List Char) :
    (splitDot s).length = s.count '.' + 1 := by
  induction s with
  | nil => simp [splitDot]
  | cons c cs ih =>
    simp only [splitDot]
    by_cases hc : c = '.'
    · simp [hc, List.count_cons, ih]
    · simp only [hc, if_false]
      cases h : splitDot cs with
      | nil => exact absurd h (splitDot_ne_nil cs)
      | cons hd tl =>
        simp only [List.length_cons]
        have := ih
        rw [h] at this
        simp only [List.length_cons] at this
        simp [List.count_cons, hc, ← this]

theorem splitDot_no_dot (s : List Char) (h : '.' ∉ s) : splitDot s = [s] := by
  induction s with
  | nil => simp [splitDot]
  | cons c cs ih =>
    have hc : c ≠ '.' := fun hc => h (hc ▸ List.mem_cons_self c cs)
    have hcs : '.' ∉ cs := fun hm => h (List.mem_cons_of_mem c hm)
    simp only [splitDot, hc, if_false, ih hcs]

theorem splitDot_append (ns tb : List Char) (h : '.' ∉ ns) :
    splitDot (ns ++ '.' :: tb) = ns :: splitDot tb := by
  induction ns with
  | nil => simp [splitDot]
  | cons c cs ih =>
    have hc : c ≠ '.' := fun hc => h (hc ▸ List.mem_cons_self c cs)
    have hcs : '.' ∉ cs := fun hm => h (List.mem_cons_of_mem c hm)
    simp only [List.cons_append, splitDot, hc, if_false, List.append_eq, ih hcs]

theorem parse_error_of_length (s : List Char) (h : (splitDot s).length ≠ 2) :
    ∃ m, parseDatasetTable s = Except.error m := by
  unfold parseDatasetTable
  rcases hs : splitDot s with _ | ⟨a, _ | ⟨b, _ | ⟨c, l⟩⟩⟩
  · simp
  · simp
  · rw [hs] at h; simp at h
  · simp

/-- C3: a string of the form `ns ++ "." ++ table` with exactly one separator
parses successfully into the pair `(dataset_id, table_id) = (ns, table)`,
while any string whose dot count is not exactly one makes `__init__` raise
the configuration `ValueError`. -/
theorem c3_parse_single_separator (ns tb s : List Char)
    (h1 : '.' ∉ ns) (h2 : '.' ∉ tb) (h0 : s.count '.' ≠ 1) :
    parseDatasetTable (ns ++ '.' :: tb) = Except.ok (ns, tb) ∧
    ∃ m, parseDatasetTable s = Except.error m := by
  constructor
  · unfold parseDatasetTable
    rw [splitDot_append ns tb h1, splitDot_no_dot tb h2]
  · exact parse_error_of_length s (by rw [length_splitDot]; omega)

theorem c3_parse_single_separator_witness :
    parseDatasetTable (['n', 's'] ++ '.' :: ['t', 'b']) =
      Except.ok (['n', 's'], ['t', 'b']) ∧
    ∃ m, parseDatasetTable ['a', 'b'] = Except.error m :=
  c3_parse_single_separator ['n', 's'] ['t', 'b'] ['a', 'b']
    (by decide) (by decide) (by decide)

/-- C4 counterexample: the claim says any string that does not split into two
NON-EMPTY parts must fail, but the source accepts `"a."`, storing an empty
`table_id`: the unpacking of `"a.".split('.') == ['a', '']` succeeds. -/
theorem c4_counterexample :
    parseDatasetTable ['a', '.'] = Except.ok (['a'], []) := rfl

/-- C4 amended: initialization succeeds exactly when the input contains
exactly one separator; the two parts may be empty (`"a."` and `".b"` are
accepted with an empty dataset or table id). -/
theorem c4_amended_one_separator (s : List Char) :
    (∃ d t, parseDatasetTable s = Except.ok (d, t)) ↔ s.count '.' = 1 := by
  constructor
  · rintro ⟨d, t, h⟩
    by_contra h0
    obtain ⟨m, hm⟩ := parse_error_of_length s (by rw [length_splitDot]; omega)
    rw [h] at hm
    exact Except.noConfusion hm
  · intro h1
    have hlen : (splitDot s).length = 2 := by rw [length_splitDot, h1]
    rcases hs : splitDot s with _ | ⟨a, _ | ⟨b, _ | ⟨c, l⟩⟩⟩ <;>
      rw [hs] at hlen <;> simp at hlen
    exact ⟨a, b, by unfold parseDatasetTable; rw [hs]⟩

/-! ## Theorems: the transfer loop -/

theorem length_list_rows {α : Type} (t : BQTable α)
    (sel : Option (List String)) (mr s : Nat) :
    (list_rows t sel mr s).length = min mr (t.rows.length - s) := by
  simp [list_rows]

theorem runLoop_ok {α ε : Type} (t : BQTable α) (sel : Option (List String))
    (ps : Nat) (replace : Bool) (sink : Nat → List (List α) → Option ε)
    (m : Nat) (hps : 0 < ps)
    (hok : ∀ j b, sink j b = none)
    (hm : t.rows.length ≤ m * ps)
    (hlt : ∀ j, j < m → j * ps < t.rows.length) :
    ∀ fuel i, i ≤ m → m - i < fuel →
      runLoop t sel ps replace sink fuel i =
        (pagesTrace t sel ps replace i (m - i) ++ [Event.fetch (m * ps) ps],
         none) := by
  intro fuel
  induction fuel with
  | zero => intro i hi hf; omega
  | succ f ih =>
    intro i hi hf
    have hlen : (list_rows t sel ps (i * ps)).length
        = min ps (t.rows.length - i * ps) := length_list_rows t sel ps (i * ps)
    rcases Nat.lt_or_ge i m with hlt' | hge
    · have hne : ¬ ((list_rows t sel ps (i * ps)).length = 0) := by
        rw [hlen]
        have := hlt i hlt'
        omega
      simp only [runLoop, if_neg hne, hok]
      rw [ih (i + 1) (by omega) (by omega)]
      have hmi : m - i = (m - (i + 1)) + 1 := by omega
      rw [hmi]
      simp [pagesTrace, batchAt, pageAt]
    · have him : i = m := Nat.le_antisymm hi hge
      subst him
      have h0 : (list_rows t sel ps (i * ps)).length = 0 := by
        rw [hlen]; omega
      simp [runLoop, if_pos h0, pagesTrace]

theorem runLoop_fail {α ε : Type} (t : BQTable α) (sel : Option (List String))
    (ps : Nat) (replace : Bool) (sink : Nat → List (List α) → Option ε)
    (k : Nat) (e : ε) (hps : 0 < ps)
    (hok : ∀ j, j < k → sink j (batchAt t sel ps j) = none)
    (hfail : sink k (batchAt t sel ps k) = some e)
    (hpages : ∀ j, j ≤ k → j * ps < t.rows.length) :
    ∀ fuel i, i ≤ k → k - i < fuel →
      runLoop t sel ps replace sink fuel i =
        (pagesTrace t sel ps replace i (k - i) ++
           [Event.fetch (k * ps) ps, Event.write (batchAt t sel ps k) replace],
         some e) := by
  simp only [batchAt, pageAt] at hok hfail
  intro fuel
  induction fuel with
  | zero => intro i hi hf; omega
  | succ f ih =>
    intro i hi hf
    have hlen : (list_rows t sel ps (i * ps)).length
        = min ps (t.rows.length - i * ps) := length_list_rows t sel ps (i * ps)
    have hne : ¬ ((list_rows t sel ps (i * ps)).length = 0) := by
      rw [hlen]
      have := hpages i hi
      omega
    rcases Nat.lt_or_ge i k with hlt' | hge
    · simp only [runLoop, if_neg hne, hok i hlt']
      rw [ih (i + 1) (by omega) (by omega)]
      have hki : k - i = (k - (i + 1)) + 1 := by omega
      rw [hki]
      simp [pagesTrace, batchAt, pageAt]
    · have him : i = k := Nat.le_antisymm hi hge
      subst him
      simp [runLoop, if_neg hne, hfail, pagesTrace, batchAt, pageAt]

theorem first_index_le_length {m ps N : Nat} (hps : 0 < ps)
    (hlt : ∀ j, j < m → j * ps < N) : m ≤ N := by
  rcases Nat.eq_zero_or_pos m with h0 | hpos
  · omega
  · have h1 := hlt (m - 1) (by omega)
    have h2 : (m - 1) * 1 ≤ (m - 1) * ps := Nat.mul_le_mul_left (m - 1) hps
    omega

theorem runLoop_shape {α ε : Type} (t : BQTable α) (sel : Option (List String))
    (ps : Nat) (replace : Bool) (sink : Nat → List (List α) → Option ε)
    (m : Nat) (hps : 0 < ps)
    (hm : t.rows.length ≤ m * ps)
    (hlt : ∀ j, j < m → j * ps < t.rows.length) :
    ∀ fuel i, i ≤ m → m - i < fuel →
      (runLoop t sel ps replace sink fuel i =
        (pagesTrace t sel ps replace i (m - i) ++ [Event.fetch (m * ps) ps],
         none)) ∨
      (∃ n e, i ≤ n ∧ n < m ∧ sink n (batchAt t sel ps n) = some e ∧
        runLoop t sel ps replace sink fuel i =
          (pagesTrace t sel ps replace i (n - i) ++
            [Event.fetch (n * ps) ps,
             Event.write (batchAt t sel ps n) replace], some e)) := by
  simp only [batchAt, pageAt]
  intro fuel
  induction fuel with
  | zero => intro i hi hf; omega
  | succ f ih =>
    intro i hi hf
    have hlen : (list_rows t sel ps (i * ps)).length
        = min ps (t.rows.length - i * ps) := length_list_rows t sel ps (i * ps)
    rcases Nat.lt_or_ge i m with hlt' | hge
    · have hne : ¬ ((list_rows t sel ps (i * ps)).length = 0) := by
        rw [hlen]
        have := hlt i hlt'
        omega
      rcases hs : sink i (normalize (list_rows t sel ps (i * ps))) with _ | e
      · rcases ih (i + 1) (by omega) (by omega) with hrest | ⟨n, e, hin, hnm, hs', heq⟩
        · left
          simp only [runLoop, if_neg hne, hs]
          rw [hrest]
          have hmi : m - i = (m - (i + 1)) + 1 := by omega
          rw [hmi]
          simp [pagesTrace, batchAt, pageAt]
        · right
          refine ⟨n, e, by omega, hnm, hs', ?_⟩
          simp only [runLoop, if_neg hne, hs]
          rw [heq]
          have hni : n - i = (n - (i + 1)) + 1 := by omega
          rw [hni]
          simp [pagesTrace, batchAt, pageAt]
      · right
        refine ⟨i, e, le_refl i, hlt', hs, ?_⟩
        simp [runLoop, if_neg hne, hs, pagesTrace]
    · left
      have him : i = m := Nat.le_antisymm hi hge
      subst him
      have h0 : (list_rows t sel ps (i * ps)).length = 0 := by
        rw [hlen]; omega
      simp [runLoop, if_pos h0, pagesTrace]

/-- C6: for EVERY execution (any sink behaviour, Insert or Replace mode),
the call trace is the strictly alternating lockstep trace fetch page 0,
write batch 0, fetch page 1, write batch 1, ...: either it runs to the
first exhausted page index `m` and closes with the single empty fetch, or
it is cut at the first failing write.  Either way every non-empty fetched
page gets exactly one write, writes happen in strictly increasing page
order, and batch j is written before the fetch of page j+1 begins. -/
theorem c6_lockstep_order {α ε : Type} (dt : List Char) (t : BQTable α)
    (sel : Option (List String)) (ps : Nat) (replace : Bool)
    (sink : Nat → List (List α) → Option ε) (m : Nat)
    (p : List Char × List Char)
    (hdt : parseDatasetTable dt = Except.ok p)
    (hps : 0 < ps)
    (hm : t.rows.length ≤ m * ps)
    (hlt : ∀ j, j < m → j * ps < t.rows.length) :
    ((run dt t sel ps replace sink).1 =
        pagesTrace t sel ps replace 0 m ++ [Event.fetch (m * ps) ps]) ∨
    (∃ n e, n < m ∧ sink n (batchAt t sel ps n) = some e ∧
      (run dt t sel ps replace sink).1 =
        pagesTrace t sel ps replace 0 n ++
          [Event.fetch (n * ps) ps,
           Event.write (batchAt t sel ps n) replace]) := by
  have hmN : m ≤ t.rows.length := first_index_le_length hps hlt
  rcases runLoop_shape t sel ps replace sink m hps hm hlt
      (t.rows.length + 1) 0 (by omega) (by omega) with heq | ⟨n, e, _, hnm, hs, heq⟩
  · left
    simp only [run, hdt, heq, Nat.sub_zero]
  · right
    exact ⟨n, e, hnm, hs, by simp only [run, hdt, heq, Nat.sub_zero]⟩

theorem c6_lockstep_order_witness :
    ((run ['d', '.', 't'] (⟨["A"], [[1], [2], [3], [4], [5]]⟩ : BQTable Nat)
        none 2 true (fun _ _ => (none : Option Unit))).1 =
      pagesTrace (⟨["A"], [[1], [2], [3], [4], [5]]⟩ : BQTable Nat)
          none 2 true 0 3 ++ [Event.fetch (3 * 2) 2]) ∨
    (∃ n e, n < 3 ∧
      (fun _ _ => (none : Option Unit)) n
          (batchAt (⟨["A"], [[1], [2], [3], [4], [5]]⟩ : BQTable Nat)
            none 2 n) = some e ∧
      (run ['d', '.', 't'] (⟨["A"], [[1], [2], [3], [4], [5]]⟩ : BQTable Nat)
          none 2 true (fun _ _ => (none : Option Unit))).1 =
        pagesTrace (⟨["A"], [[1], [2], [3], [4], [5]]⟩ : BQTable Nat)
            none 2 true 0 n ++
          [Event.fetch (n * 2) 2,
           Event.write (batchAt (⟨["A"], [[1], [2], [3], [4], [5]]⟩ :
             BQTable Nat) none 2 n) true]) :=
  c6_lockstep_order ['d', '.', 't'] ⟨["A"], [[1], [2], [3], [4], [5]]⟩
    none 2 true (fun _ _ => none) 3 (['d'], ['t']) rfl (by decide)
    (by decide) (by intro j hj; show j * 2 < 5; omega)

/-- C5: if the k-th sink write raises `e` while every earlier write
succeeds (and pages 0..k are non-empty), the run stops right there: the
trace contains exactly the writes of batches 0..k-1 (which stay committed,
no rollback call appears), the failing attempt on batch k, and no fetch or
write after it, and the collaborator's error `e` is propagated unmodified
as the failure outcome. -/
theorem c5_sink_failure_stops {α ε : Type} (dt : List Char) (t : BQTable α)
    (sel : Option (List String)) (ps : Nat) (replace : Bool)
    (sink : Nat → List (List α) → Option ε) (k : Nat) (e : ε)
    (p : List Char × List Char)
    (hdt : parseDatasetTable dt = Except.ok p)
    (hps : 0 < ps)
    (hok : ∀ j, j < k → sink j (batchAt t sel ps j) = none)
    (hfail : sink k (batchAt t sel ps k) = some e)
    (hpages : ∀ j, j ≤ k → j * ps < t.rows.length) :
    run dt t sel ps replace sink =
      (pagesTrace t sel ps replace 0 k ++
         [Event.fetch (k * ps) ps, Event.write (batchAt t sel ps k) replace],
       Except.error (TransferError.sink e)) := by
  have hkN : k + 1 ≤ t.rows.length :=
    first_index_le_length hps (fun j hj => hpages j (by omega))
  simp only [run, hdt]
  rw [runLoop_fail t sel ps replace sink k e hps hok hfail hpages
    (t.rows.length + 1) 0 (by omega) (by omega)]
  simp

theorem c5_sink_failure_stops_witness :
    run ['d', '.', 't'] (⟨["A"], [[1], [2], [3], [4], [5]]⟩ : BQTable Nat)
        none 2 false (fun j _ => if j = 1 then some 7 else none) =
      ([Event.fetch 0 2, Event.write [[1], [2]] false,
        Event.fetch 2 2, Event.write [[3], [4]] false],
       Except.error (TransferError.sink 7)) :=
  (c5_sink_failure_stops ['d', '.', 't'] ⟨["A"], [[1], [2], [3], [4], [5]]⟩
    none 2 false (fun j _ => if j = 1 then some 7 else none) 1 7
    (['d'], ['t']) rfl (by decide)
    (by intro j hj
        have : j = 0 := by omega
        subst this
        rfl)
    rfl
    (by intro j hj; show j * 2 < 5; omega)).trans rfl

/-- C7: the fetch for page index `i` asks for at most `ps` rows starting at
offset `i * ps`, and the returned page has exactly
`min ps (tableSize - i * ps)` rows: it is capped by the page size, and it is
empty exactly when the offset is at or past the end of the table, never
before. -/
theorem c7_fetch_page_length {α : Type} (t : BQTable α)
    (sel : Option (List String)) (ps i : Nat) (hps : 0 < ps) :
    (pageAt t sel ps i).length = min ps (t.rows.length - i * ps) ∧
    (pageAt t sel ps i).length ≤ ps ∧
    ((pageAt t sel ps i).length = 0 ↔ t.rows.length ≤ i * ps) := by
  have h : (pageAt t sel ps i).length = min ps (t.rows.length - i * ps) := by
    simp only [pageAt]
    exact length_list_rows t sel ps (i * ps)
  refine ⟨h, ?_, ?_⟩
  · rw [h]; omega
  · rw [h]; omega

theorem c7_fetch_page_length_witness :
    (pageAt (⟨["A"], [[1], [2], [3], [4], [5]]⟩ : BQTable Nat) none 2 2).length
        = min 2 (5 - 2 * 2) ∧
    (pageAt (⟨["A"], [[1], [2], [3], [4], [5]]⟩ : BQTable Nat) none 2 2).length
        ≤ 2 ∧
    ((pageAt (⟨["A"], [[1], [2], [3], [4], [5]]⟩ : BQTable Nat) none 2 2).length
        = 0 ↔ (5 : Nat) ≤ 2 * 2) :=
  c7_fetch_page_length ⟨["A"], [[1], [2], [3], [4], [5]]⟩ none 2 2 (by decide)

/-- C8: a source-table string with no separator makes the run fail with the
configuration error before any collaborator call: the call trace is empty,
so zero fetches and zero writes occur. -/
theorem c8_config_error_no_calls {α ε : Type} (s : List Char) (t : BQTable α)
    (sel : Option (List String)) (ps : Nat) (replace : Bool)
    (sink : Nat → List (List α) → Option ε)
    (h : s.count '.' = 0) :
    ∃ m, run s t sel ps replace sink =
      ([], Except.error (TransferError.config m)) := by
  obtain ⟨m, hm⟩ := parse_error_of_length s (by rw [length_splitDot]; omega)
  exact ⟨m, by simp [run, hm]⟩

theorem c8_config_error_no_calls_witness :
    ∃ m, run ['b', 'a', 'd'] (⟨["A"], [[1]]⟩ : BQTable Nat) none 2 false
        (fun _ _ => (none : Option Unit)) =
      ([], Except.error (TransferError.config m)) :=
  c8_config_error_no_calls ['b', 'a', 'd'] ⟨["A"], [[1]]⟩ none 2 false
    (fun _ _ => none) (by decide)

/-! ## Theorems: the normalizer (C1) -/

/-- C1: the normalized rows list, for every source row, the scalar of each
field entry in the table's native column order restricted to the projected
columns; permuting the requested projection order does not change the
output, so a projection `[B, A]` against native order `[A, B, C]` still
yields rows of the form `[A, B]`. -/
theorem c1_native_order {α : Type} (t : BQTable α) (proj proj' : List String)
    (ps s : Nat) (hperm : List.Perm proj proj') :
    normalize (list_rows t (some proj) ps s) =
      ((t.rows.drop s).take ps).map
        (fun row => ((t.columns.zip row).filter
          (fun q => decide (q.1 ∈ proj))).map Prod.snd) ∧
    normalize (list_rows t (some proj) ps s) =
      normalize (list_rows t (some proj') ps s) := by
  constructor
  · simp only [normalize, list_rows, keepCol, List.map_map]
    apply List.map_congr_left
    intro row _
    simp only [Function.comp_apply, List.map_map]
    rfl
  · simp only [normalize, list_rows, keepCol, List.map_map]
    apply List.map_congr_left
    intro row _
    simp only [Function.comp_apply]
    rw [List.filter_congr (fun q _ => decide_eq_decide.mpr hperm.mem_iff)]

theorem c1_native_order_witness :
    normalize (list_rows (⟨["A", "B", "C"], [[1, 2, 3], [4, 5, 6]]⟩ :
        BQTable Nat) (some ["B", "A"]) 5 0) =
      normalize (list_rows (⟨["A", "B", "C"], [[1, 2, 3], [4, 5, 6]]⟩ :
        BQTable Nat) (some ["A", "B"]) 5 0) ∧
    normalize (list_rows (⟨["A", "B", "C"], [[1, 2, 3], [4, 5, 6]]⟩ :
        BQTable Nat) (some ["B", "A"]) 5 0) = [[1, 2], [4, 5]] :=
  ⟨(c1_native_order ⟨["A", "B", "C"], [[1, 2, 3], [4, 5, 6]]⟩
      ["B", "A"] ["A", "B"] 5 0 (by decide)).2, by decide⟩

/-! ## Theorems: the 2,500-row end-to-end scenario (C2) -/

theorem t2500_rows_length : t2500.rows.length = 2500 := by
  rw [show t2500.rows = List.replicate 2500 [0] from rfl, List.length_replicate]

theorem run2500_eq :
    run2500 =
      (pagesTrace t2500 none 1000 false 0 3 ++ [Event.fetch 3000 1000],
       Except.ok ()) := by
  have hdt : parseDatasetTable ['d', '.', 't'] = Except.ok (['d'], ['t']) := rfl
  simp only [run2500, run, hdt]
  rw [runLoop_ok t2500 none 1000 false (fun _ _ => none) 3 (by omega)
    (fun _ _ => rfl)
    (by rw [t2500_rows_length]; omega)
    (by intro j hj; rw [t2500_rows_length]; omega)
    (t2500.rows.length + 1) 0 (by omega) (by rw [t2500_rows_length]; omega)]

theorem batchAt_t2500_length (j : Nat) :
    (batchAt t2500 none 1000 j).length = min 1000 (2500 - j * 1000) := by
  simp only [batchAt, pageAt, normalize, List.length_map, length_list_rows,
    t2500_rows_length]

theorem writeSizes_run2500 : writeSizes run2500.1 = [1000, 1000, 500] := by
  rw [run2500_eq]
  have hexp : pagesTrace t2500 none 1000 false 0 3 =
      [Event.fetch 0 1000, Event.write (batchAt t2500 none 1000 0) false,
       Event.fetch 1000 1000, Event.write (batchAt t2500 none 1000 1) false,
       Event.fetch 2000 1000, Event.write (batchAt t2500 none 1000 2) false] :=
    rfl
  rw [hexp]
  simp only [writeSizes, List.filterMap_append, List.filterMap_cons]
  rw [batchAt_t2500_length 0, batchAt_t2500_length 1, batchAt_t2500_length 2]
  simp

/-- C2 counterexample: in the 2,500-row, `batch_size = 1000`, Insert-mode
scenario the three writes of sizes 1000, 1000, 500 do happen, but the claim
that no further fetch follows the third write is false: the loop only stops
on an EMPTY page, so a fourth fetch at offset 3000 follows the third write
and is the last call of the trace. -/
theorem c2_counterexample :
    run2500.1.getLast? = some (Event.fetch 3000 1000) ∧
    writeSizes run2500.1 = [1000, 1000, 500] := by
  constructor
  · rw [run2500_eq]
    exact List.getLast?_concat _
  · exact writeSizes_run2500

/-- C2 amended: with 2,500 source rows, `batch_size = 1000` and Insert mode,
the run issues exactly three writes of sizes 1000, 1000 and 500 in that
order, each directly after the fetch of its page, then performs ONE further
fetch (offset 3000) whose empty result terminates the run successfully. -/
theorem c2_amended_trailing_fetch :
    run2500 =
      (pagesTrace t2500 none 1000 false 0 3 ++ [Event.fetch 3000 1000],
       Except.ok ()) ∧
    writeSizes run2500.1 = [1000, 1000, 500] :=
  ⟨run2500_eq, writeSizes_run2500⟩

/-! ## Theorems: label sanitization (C9, C10) -/

theorem label_branch_eq (md5hex : List Char → List Char) (s : List Char)
    (max_length : Nat) (hh : 9 ≤ (md5hex s).length) (hml : 10 ≤ max_length) :
    make_safe_label_value md5hex s max_length =
      if max_length < (safe_label_sub s).length ∨ s ≠ safe_label_sub s then
        (safe_label_sub s).take (max_length - 9 - 1) ++
          '-' :: (md5hex s).take 9
      else s := by
  have hlen : ((md5hex s).take 9).length = 9 := by
    rw [List.length_take]
    omega
  simp only [make_safe_label_value]
  by_cases hc : max_length < (safe_label_sub s).length ∨ s ≠ safe_label_sub s
  · rw [if_pos hc, if_pos hc]
    congr 1
    rw [hlen, pySliceTo]
    rw [if_neg (by omega)]
    congr 1
    omega
  · rw [if_neg hc, if_neg hc]
    exact ((not_or.mp hc).2 |> not_not.mp).symm

/-- C9: `make_safe_label_value` is a pure function of its inputs, hence
deterministic; whenever the digest has at least 9 characters (an md5
hexdigest has 32) and the limit is at least 10: if the boundary-stripped
sanitized form differs from the input or exceeds the limit, the result is
the sanitized form truncated to `max_length - 9 - 1` characters followed by
`'-'` and the fixed 9-character digest prefix of the original input;
otherwise the result is the input unchanged. -/
theorem c9_label_structure (md5hex : List Char → List Char) (s : List Char)
    (max_length : Nat) (hh : 9 ≤ (md5hex s).length) (hml : 10 ≤ max_length) :
    make_safe_label_value md5hex s max_length =
      if max_length < (safe_label_sub s).length ∨ s ≠ safe_label_sub s then
        (safe_label_sub s).take (max_length - 9 - 1) ++
          '-' :: (md5hex s).take 9
      else s :=
  label_branch_eq md5hex s max_length hh hml

theorem c9_label_structure_witness :
    make_safe_label_value hexConst ['a', ' ', 'b'] 63 =
      ['a', 'b', '-', '0', '1', '2', '3', '4', '5', '6', '7', '8'] :=
  (c9_label_structure hexConst ['a', ' ', 'b'] 63 (by decide)
    (by decide)).trans (by decide)

theorem hex_allowed : ∀ c ∈ hexDigits, isAllowedLabelChar c = true := by
  decide

/-- C10: with the default limit `MAX_LABEL_LEN = 63` and a 32-character
hexadecimal digest, the result never exceeds 63 characters, and in the
hash-and-truncate branch every character of the result is alphanumeric,
an underscore, a dot or a hyphen. -/
theorem c10_label_bounds (md5hex : List Char → List Char) (s : List Char)
    (h32 : (md5hex s).length = 32)
    (hhex : ∀ c ∈ md5hex s, c ∈ hexDigits) :
    (make_safe_label_value md5hex s MAX_LABEL_LEN).length ≤ 63 ∧
    ((MAX_LABEL_LEN < (safe_label_sub s).length ∨ s ≠ safe_label_sub s) →
      ∀ c ∈ make_safe_label_value md5hex s MAX_LABEL_LEN,
        isAllowedLabelChar c = true) := by
  have heq := label_branch_eq md5hex s MAX_LABEL_LEN (by omega) (by decide)
  by_cases hc : MAX_LABEL_LEN < (safe_label_sub s).length ∨
      s ≠ safe_label_sub s
  · rw [heq, if_pos hc]
    constructor
    · simp only [List.length_append, List.length_cons, List.length_take, h32]
      have : MAX_LABEL_LEN = 63 := rfl
      omega
    · intro _ c hmem
      rcases List.mem_append.mp hmem with hL | hR
      · have hsub : c ∈ safe_label_sub s := List.take_subset _ _ hL
        exact (List.mem_filter.mp hsub).2
      · rcases List.mem_cons.mp hR with hdash | htake
        · rw [hdash]; decide
        · exact hex_allowed c (hhex c (List.take_subset _ _ htake))
  · rw [heq, if_neg hc]
    have hnot := not_or.mp hc
    have hle : (safe_label_sub s).length ≤ MAX_LABEL_LEN :=
      Nat.le_of_not_lt hnot.1
    have hseq : s = safe_label_sub s := not_not.mp hnot.2
    constructor
    · rw [hseq]
      exact le_trans hle (by decide)
    · intro h
      exact absurd h hc

theorem c10_label_bounds_witness :
    (make_safe_label_value hexConst ['a', ' ', 'b'] MAX_LABEL_LEN).length
        ≤ 63 ∧
    ((MAX_LABEL_LEN < (safe_label_sub ['a', ' ', 'b']).length ∨
        ['a', ' ', 'b'] ≠ safe_label_sub ['a', ' ', 'b']) →
      ∀ c ∈ make_safe_label_value hexConst ['a', ' ', 'b'] MAX_LABEL_LEN,
        isAllowedLabelChar c = true) :=
  c10_label_bounds hexConst ['a', ' ', 'b'] (by decide) (by decide)

end Airflow
